import Mathlib

/-!
Verification of the thermal analysis and report pipeline of termika.py.

Temperatures are modelled as rationals.  A numpy 2-D array is modelled as a
list of rows; numpy reductions without an axis argument operate on the
row-major (C-order) flattening, modelled by List.flatten.  External
collaborators (the DJI decoder, matplotlib, scipy's gaussian_filter, tifffile,
exiftool) are modelled as abstract parameters or as events in an effect trace.
-/

namespace Termika

/-- A temperature matrix: a list of rows, each row a list of per-pixel
temperatures.  Produced by the external decoder (thermal_engine.parse). -/
abbrev TempMatrix := List (List ℚ)

/-- Row-major flattening; numpy whole-array reductions read this order. -/
def flat (m : TempMatrix) : List ℚ := m.flatten

/-- Minimum of a list of values, as computed by np.min (the value 0 for the
empty array stands in for numpy's error on empty input; the pipeline only
calls it on decoded, non-empty matrices). -/
def listMin : List ℚ → ℚ
  | [] => 0
  | x :: xs => xs.foldl min x

/-- Maximum of a list of values, as computed by np.max. -/
def listMax : List ℚ → ℚ
  | [] => 0
  | x :: xs => xs.foldl max x

/-- Arithmetic mean, as computed by np.mean: sum divided by element count. -/
def listMean (l : List ℚ) : ℚ := l.sum / l.length

/-- Ascending sort of the data, as performed internally by np.median. -/
def sortAsc (l : List ℚ) : List ℚ := l.insertionSort (· ≤ ·)

/-- Median, as computed by np.median: the middle element of the sorted data
for odd length, the average of the two middle elements for even length. -/
def listMedian (l : List ℚ) : ℚ :=
  if (sortAsc l).length % 2 = 1 then (sortAsc l).getD ((sortAsc l).length / 2) 0
  else ((sortAsc l).getD ((sortAsc l).length / 2 - 1) 0 +
        (sortAsc l).getD ((sortAsc l).length / 2) 0) / 2

/-- The four scalar statistics of process_image, lines 99-100 of termika.py;
field names follow the source variables (t_min, t_max, t_avg = mean,
t_med = median). -/
structure Stats where
  t_min : ℚ
  t_max : ℚ
  t_avg : ℚ
  t_med : ℚ
deriving DecidableEq

/-- Statistics Calculator: t_min, t_max = np.min, np.max; t_avg, t_med =
np.mean, np.median of the temperature matrix (lines 99-100). -/
def computeStats (m : TempMatrix) : Stats :=
  { t_min := listMin (flat m), t_max := listMax (flat m),
    t_avg := listMean (flat m), t_med := listMedian (flat m) }

/-- Zone bounds of line 109: t_low = t_med * (1 - d), t_high = t_med * (1 + u),
where d = STREFA_DOL_P and u = STREFA_GORA_P are the configured fractional
margins. -/
def zoneBounds (t_med d u : ℚ) : ℚ × ℚ := (t_med * (1 - d), t_med * (1 + u))

/-- Zone mask of line 110: np.logical_and(temp_data >= t_low,
temp_data <= t_high).astype(float), a 0/1 field of the matrix shape. -/
def zoneMask (m : TempMatrix) (t_low t_high : ℚ) : TempMatrix :=
  m.map fun row => row.map fun x => if t_low ≤ x ∧ x ≤ t_high then (1 : ℚ) else 0

/-- Contour decision of lines 111-114: a contour is drawn only when the raw
mask is non-uniform (np.min(mask) != np.max(mask)) and the smoothed mask
straddles the 0.5 level (np.min < 0.5 < np.max).  The Gaussian smoothing pass
(scipy.ndimage.gaussian_filter, sigma = 1.5, an external collaborator) is an
abstract parameter. -/
def contourEmitted (smooth : TempMatrix → TempMatrix) (mask : TempMatrix) : Bool :=
  if listMin (flat mask) ≠ listMax (flat mask) then
    let sm := flat (smooth mask)
    decide (listMin sm < 1 / 2 ∧ 1 / 2 < listMax sm)
  else
    false

/-- First index of the value a in a list (numpy's argmax and argmin return the
first occurrence of the extremum when several cells tie). -/
def firstIdxOf (a : ℚ) : List ℚ → Nat
  | [] => 0
  | x :: xs => if x = a then 0 else firstIdxOf a xs + 1

/-- np.argmax over the row-major flattened data (line 117). -/
def argmaxIdx (l : List ℚ) : Nat := firstIdxOf (listMax l) l

/-- np.argmin over the row-major flattened data (line 118). -/
def argminIdx (l : List ℚ) : Nat := firstIdxOf (listMin l) l

/-- np.unravel_index for a (h, w) shape: flat index i maps to row i / w,
column i % w. -/
def unravelIndex (i w : Nat) : Nat × Nat := (i / w, i % w)

/-- Matrix lookup at row r, column c. -/
def matGet (m : TempMatrix) (r c : Nat) : ℚ := (m.getD r []).getD c 0

/-- Well-formedness of an h×w matrix: h rows, each of width w. -/
def Wf (m : TempMatrix) (h w : Nat) : Prop :=
  m.length = h ∧ ∀ row ∈ m, row.length = w

/-- Substring of a character list from position a (inclusive) to b (exclusive),
mirroring Python slicing s[a:b]. -/
def sliceStr (l : List Char) (a b : Nat) : String :=
  String.mk ((l.drop a).take (b - a))

/-- Reformatting step of parse_dji_datetime (line 154): given the 14 matched
digit characters (8-digit date d followed by 6-digit time t), produce
d[6:8].d[4:6].d[0:4] t[0:2]:t[2:4]:t[4:6]. -/
def formatDjiDatetime (ds : List Char) : String :=
  sliceStr ds 6 8 ++ "." ++ sliceStr ds 4 6 ++ "." ++ sliceStr ds 0 4 ++ " " ++
  sliceStr ds 8 10 ++ ":" ++ sliceStr ds 10 12 ++ ":" ++ sliceStr ds 12 14

/-- re.search of the fixed-length pattern of 8 digits followed by 6 digits
(line 151): the leftmost position where 14 consecutive digits start; returns
those 14 characters. -/
def findDigitRun : List Char → Option (List Char)
  | [] => none
  | c :: rest =>
    if ((c :: rest).take 14).length = 14 ∧ ((c :: rest).take 14).all Char.isDigit
    then some ((c :: rest).take 14)
    else findDigitRun rest

/-- parse_dji_datetime (lines 150-155): reformat the matched date+time digits,
or return the placeholder "Data nieznana" when the filename has no match. -/
def parse_dji_datetime (s : String) : String :=
  match findDigitRun s.data with
  | some ds => formatDjiDatetime ds
  | none => "Data nieznana"

/-- There is a match of the date+time pattern at position i of the character
list: at least 14 characters remain and the next 14 are all digits. -/
def matchAt (l : List Char) (i : Nat) : Prop :=
  i + 14 ≤ l.length ∧ ((l.drop i).take 14).all Char.isDigit = true

/-- Outcome of processing one file in the batch loop (lines 171-175): either
the file was processed, or its exception was caught and logged with the
file name. -/
inductive BatchEvent
  | processed (fname : String)
  | failed (fname : String) (err : String)
deriving DecidableEq

/-- The file a batch event is about. -/
def eventFile : BatchEvent → String
  | .processed f => f
  | .failed f _ => f

/-- sorted(...) of line 165 on the list of matched file names (Python sorts
strings lexicographically by code point, as does String order here). -/
def sortFiles (files : List String) : List String :=
  files.insertionSort (· ≤ ·)

/-- glob.glob with the pattern *_T.JPG of line 165: the directory entries
whose names end in the case-sensitive thermal-channel suffix, checked on the
last six characters. -/
def matchingFiles (entries : List String) : List String :=
  entries.filter (fun f => f.data.reverse.take 6 == "_T.JPG".data.reverse)

/-- The batch loop of lines 165-175: glob-match then sort the file names, then
for each file run the per-file processing (an abstract parameter covering
decode and pipeline); an exception is caught at the per-file boundary and
logged with the file name, and the loop continues to the next file. -/
def runBatch (proc : String → Except String Unit) (entries : List String) :
    List BatchEvent :=
  (sortFiles (matchingFiles entries)).map fun f =>
    match proc f with
    | .ok _ => .processed f
    | .error e => .failed f e

/-- Observable steps of save_radiometric_tiff (lines 55-82): the raster write
(tiff.imwrite of the float32 payload, which the float32 decoder output leaves
unaltered), the printed exiftool warning, and the printed message of the
except-branch. -/
inductive SaveEvent
  | wroteTiff (data : TempMatrix)
  | warnedExif (stderr : String)
  | printedError (msg : String)
deriving DecidableEq

/-- Body of the try-block of save_radiometric_tiff (lines 58-79): write the
raster, run exiftool (modelled as an abstract outcome: an exit code with
stderr, or an exception such as the tool being absent), and warn on a
non-zero exit.  Returns the trace of events together with the exception that
escaped the body, if any. -/
def saveBody (data : TempMatrix) (writeRes : Except String Unit)
    (exifRun : Except String (Int × String)) : List SaveEvent × Option String :=
  match writeRes with
  | .error e => ([], some e)
  | .ok _ =>
    match exifRun with
    | .error e => ([SaveEvent.wroteTiff data], some e)
    | .ok (code, stderr) =>
      if code ≠ 0 then ([SaveEvent.wroteTiff data, SaveEvent.warnedExif stderr], none)
      else ([SaveEvent.wroteTiff data], none)

/-- save_radiometric_tiff (lines 55-82): the try-block body wrapped in
except Exception, which prints the error and returns normally.  The function
total return type (a plain trace, no Except) reflects that no exception
escapes it. -/
def save_radiometric_tiff (data : TempMatrix) (writeRes : Except String Unit)
    (exifRun : Except String (Int × String)) : List SaveEvent :=
  match saveBody data writeRes exifRun with
  | (evs, some e) => evs ++ [SaveEvent.printedError e]
  | (evs, none) => evs

/-- process_image in orto (raw) mode (lines 89-92): decode the file, then
call save_radiometric_tiff; only a decode failure escapes to the caller. -/
def process_image_orto (parseRes : Except String TempMatrix)
    (writeRes : Except String Unit) (exifRun : Except String (Int × String)) :
    Except String (List SaveEvent) :=
  match parseRes with
  | .error e => .error e
  | .ok data => .ok (save_radiometric_tiff data writeRes exifRun)

/-- Figure-lifecycle events of process_image in the visual modes. -/
inductive FigEvent
  | figCreated
  | savedFig (path : String)
  | figClosed
deriving DecidableEq

/-- Figure lifecycle of process_image in the visual modes (lines 102-139):
plt.figure creates a fresh figure at entry, plt.savefig writes the output, and
plt.close(fig) runs on the line after savefig, with no try/finally.  The trace
is returned together with the exception escaping the call, if any: when
savefig raises, the close is not reached and the exception propagates to the
batch loop. -/
def composeReport (outputPath : String) (saveRes : Except String Unit) :
    List FigEvent × Option String :=
  match saveRes with
  | .ok _ => ([FigEvent.figCreated, FigEvent.savedFig outputPath, FigEvent.figClosed], none)
  | .error e => ([FigEvent.figCreated], some e)

/-! Helper lemmas about the list-level statistics. -/

theorem foldlMin_le_init (t : List ℚ) : ∀ a : ℚ, t.foldl min a ≤ a := by
  induction t with
  | nil => intro a; simp
  | cons x xs ih =>
    intro a
    calc (x :: xs).foldl min a = xs.foldl min (min a x) := rfl
    _ ≤ min a x := ih _
    _ ≤ a := min_le_left _ _

theorem foldlMin_le_mem (t : List ℚ) : ∀ a x : ℚ, x ∈ t → t.foldl min a ≤ x := by
  induction t with
  | nil => intro a x hx; cases hx
  | cons y ys ih =>
    intro a x hx
    rcases List.mem_cons.mp hx with h | h
    · subst h
      calc (x :: ys).foldl min a = ys.foldl min (min a x) := rfl
      _ ≤ min a x := foldlMin_le_init ys _
      _ ≤ x := min_le_right _ _
    · exact ih (min a y) x h

theorem listMin_le (l : List ℚ) (x : ℚ) (hx : x ∈ l) : listMin l ≤ x := by
  cases l with
  | nil => cases hx
  | cons y ys =>
    rcases List.mem_cons.mp hx with h | h
    · subst h
      exact foldlMin_le_init ys x
    · exact foldlMin_le_mem ys y x h

theorem le_foldlMax_init (t : List ℚ) : ∀ a : ℚ, a ≤ t.foldl max a := by
  induction t with
  | nil => intro a; simp
  | cons x xs ih =>
    intro a
    calc a ≤ max a x := le_max_left _ _
    _ ≤ xs.foldl max (max a x) := ih _
    _ = (x :: xs).foldl max a := rfl

theorem le_foldlMax_mem (t : List ℚ) : ∀ a x : ℚ, x ∈ t → x ≤ t.foldl max a := by
  induction t with
  | nil => intro a x hx; cases hx
  | cons y ys ih =>
    intro a x hx
    rcases List.mem_cons.mp hx with h | h
    · subst h
      calc x ≤ max a x := le_max_right _ _
      _ ≤ ys.foldl max (max a x) := le_foldlMax_init ys _
      _ = (x :: ys).foldl max a := rfl
    · exact ih (max a y) x h

theorem le_listMax (l : List ℚ) (x : ℚ) (hx : x ∈ l) : x ≤ listMax l := by
  cases l with
  | nil => cases hx
  | cons y ys =>
    rcases List.mem_cons.mp hx with h | h
    · subst h
      exact le_foldlMax_init ys x
    · exact le_foldlMax_mem ys y x h

theorem foldlMin_mem (t : List ℚ) : ∀ a : ℚ, t.foldl min a = a ∨ t.foldl min a ∈ t := by
  induction t with
  | nil => intro a; left; rfl
  | cons y ys ih =>
    intro a
    rcases ih (min a y) with h | h
    · rcases min_choice a y with hc | hc
      · left
        show ys.foldl min (min a y) = a
        rw [h, hc]
      · right
        show ys.foldl min (min a y) ∈ y :: ys
        rw [h, hc]
        exact List.mem_cons_self _ _
    · right
      exact List.mem_cons_of_mem _ h

theorem listMin_mem (l : List ℚ) (h : l ≠ []) : listMin l ∈ l := by
  cases l with
  | nil => exact absurd rfl h
  | cons y ys =>
    rcases foldlMin_mem ys y with h1 | h1
    · show ys.foldl min y ∈ y :: ys
      rw [h1]
      exact List.mem_cons_self _ _
    · exact List.mem_cons_of_mem _ h1

theorem foldlMax_mem (t : List ℚ) : ∀ a : ℚ, t.foldl max a = a ∨ t.foldl max a ∈ t := by
  induction t with
  | nil => intro a; left; rfl
  | cons y ys ih =>
    intro a
    rcases ih (max a y) with h | h
    · rcases max_choice a y with hc | hc
      · left
        show ys.foldl max (max a y) = a
        rw [h, hc]
      · right
        show ys.foldl max (max a y) ∈ y :: ys
        rw [h, hc]
        exact List.mem_cons_self _ _
    · right
      exact List.mem_cons_of_mem _ h

theorem listMax_mem (l : List ℚ) (h : l ≠ []) : listMax l ∈ l := by
  cases l with
  | nil => exact absurd rfl h
  | cons y ys =>
    rcases foldlMax_mem ys y with h1 | h1
    · show ys.foldl max y ∈ y :: ys
      rw [h1]
      exact List.mem_cons_self _ _
    · exact List.mem_cons_of_mem _ h1

theorem length_mul_le_sum (l : List ℚ) (a : ℚ) (h : ∀ x ∈ l, a ≤ x) :
    (l.length : ℚ) * a ≤ l.sum := by
  induction l with
  | nil => simp
  | cons x xs ih =>
    have hx := h x (List.mem_cons_self x xs)
    have ihx := ih (fun y hy => h y (List.mem_cons_of_mem _ hy))
    simp only [List.length_cons, List.sum_cons]
    have hexp : ((xs.length + 1 : ℕ) : ℚ) * a = (xs.length : ℚ) * a + a := by
      push_cast
      ring
    rw [hexp]
    linarith

theorem sum_le_length_mul (l : List ℚ) (b : ℚ) (h : ∀ x ∈ l, x ≤ b) :
    l.sum ≤ (l.length : ℚ) * b := by
  induction l with
  | nil => simp
  | cons x xs ih =>
    have hx := h x (List.mem_cons_self x xs)
    have ihx := ih (fun y hy => h y (List.mem_cons_of_mem _ hy))
    simp only [List.length_cons, List.sum_cons]
    have hexp : ((xs.length + 1 : ℕ) : ℚ) * b = (xs.length : ℚ) * b + b := by
      push_cast
      ring
    rw [hexp]
    linarith

theorem listMean_bounds (l : List ℚ) (h : l ≠ []) :
    listMin l ≤ listMean l ∧ listMean l ≤ listMax l := by
  have hn : 0 < (l.length : ℚ) := by
    have := List.length_pos.mpr h
    exact_mod_cast this
  have h1 := length_mul_le_sum l (listMin l) (fun x hx => listMin_le l x hx)
  have h2 := sum_le_length_mul l (listMax l) (fun x hx => le_listMax l x hx)
  constructor
  · rw [listMean, le_div_iff₀ hn]
    calc listMin l * (l.length : ℚ) = (l.length : ℚ) * listMin l := by ring
    _ ≤ l.sum := h1
  · rw [listMean, div_le_iff₀ hn]
    calc l.sum ≤ (l.length : ℚ) * listMax l := h2
    _ = listMax l * (l.length : ℚ) := by ring

theorem sortAsc_perm (l : List ℚ) : (sortAsc l).Perm l :=
  List.perm_insertionSort _ l

theorem sortAsc_getD_mem (l : List ℚ) (i : Nat) (hi : i < (sortAsc l).length) :
    (sortAsc l).getD i 0 ∈ l := by
  have hmem : (sortAsc l).getD i 0 ∈ sortAsc l := by
    rw [List.getD_eq_getElem _ _ hi]
    exact List.getElem_mem hi
  exact (sortAsc_perm l).mem_iff.mp hmem

theorem listMedian_bounds (l : List ℚ) (h : l ≠ []) :
    listMin l ≤ listMedian l ∧ listMedian l ≤ listMax l := by
  have hlen : (sortAsc l).length = l.length := (sortAsc_perm l).length_eq
  have hpos : 0 < (sortAsc l).length := by
    rw [hlen]
    exact List.length_pos.mpr h
  have hmid : (sortAsc l).length / 2 < (sortAsc l).length :=
    Nat.div_lt_self hpos (by norm_num)
  have hmid1 : (sortAsc l).length / 2 - 1 < (sortAsc l).length :=
    lt_of_le_of_lt (Nat.sub_le _ _) hmid
  have hm := sortAsc_getD_mem l _ hmid
  have hm1 := sortAsc_getD_mem l _ hmid1
  rw [listMedian]
  by_cases hodd : (sortAsc l).length % 2 = 1
  · rw [if_pos hodd]
    exact ⟨listMin_le l _ hm, le_listMax l _ hm⟩
  · rw [if_neg hodd]
    have b1 := listMin_le l _ hm
    have b2 := le_listMax l _ hm
    have b3 := listMin_le l _ hm1
    have b4 := le_listMax l _ hm1
    constructor
    · linarith
    · linarith

/-- A list all of whose entries equal the same constant has equal min and max. -/
theorem listMin_eq_listMax_of_const (l : List ℚ) (c : ℚ) (h : ∀ x ∈ l, x = c) :
    listMin l = listMax l := by
  cases hl : l with
  | nil => rfl
  | cons x xs =>
    have hne : l ≠ [] := by rw [hl]; exact List.cons_ne_nil _ _
    rw [← hl]
    rw [h _ (listMin_mem l hne), h _ (listMax_mem l hne)]

/-! Helper lemmas about the flattening and the extremum index. -/

theorem flat_cons (row : List ℚ) (rest : TempMatrix) :
    flat (row :: rest) = row ++ flat rest := by
  simp [flat]

theorem flat_length (m : TempMatrix) (w : Nat) (hw : ∀ row ∈ m, row.length = w) :
    (flat m).length = m.length * w := by
  induction m with
  | nil => simp [flat]
  | cons row rest ih =>
    have hrow := hw row (List.mem_cons_self _ _)
    have ihr := ih (fun r hr => hw r (List.mem_cons_of_mem _ hr))
    rw [flat_cons, List.length_append, hrow, ihr, List.length_cons, Nat.succ_mul,
      Nat.add_comm]

theorem matGet_flat (m : TempMatrix) (w : Nat) :
    ∀ r c : Nat, (∀ row ∈ m, row.length = w) → r < m.length → c < w →
      (flat m).getD (r * w + c) 0 = matGet m r c := by
  induction m with
  | nil =>
    intro r c _ hr _
    simp at hr
  | cons row rest ih =>
    intro r c hw hr hc
    have hrow := hw row (List.mem_cons_self _ _)
    rw [flat_cons]
    cases r with
    | zero =>
      have hlt : c < row.length := by rw [hrow]; exact hc
      rw [Nat.zero_mul, Nat.zero_add, List.getD_append _ _ _ _ hlt]
      simp [matGet]
    | succ r =>
      have hge : row.length ≤ (r + 1) * w + c := by
        rw [hrow, Nat.succ_mul]
        omega
      rw [List.getD_append_right _ _ _ _ hge]
      have harith : (r + 1) * w + c - row.length = r * w + c := by
        rw [hrow, Nat.succ_mul]
        omega
      rw [harith]
      have hr2 : r < rest.length := by
        rw [List.length_cons] at hr
        omega
      rw [ih r c (fun rr hrr => hw rr (List.mem_cons_of_mem _ hrr)) hr2 hc]
      simp [matGet]

theorem firstIdxOf_getD (l : List ℚ) (a : ℚ) (h : a ∈ l) :
    l.getD (firstIdxOf a l) 0 = a := by
  induction l with
  | nil => cases h
  | cons x xs ih =>
    by_cases hx : x = a
    · simp [firstIdxOf, hx]
    · have hm : a ∈ xs := by
        rcases List.mem_cons.mp h with h1 | h1
        · exact absurd h1.symm hx
        · exact h1
      simp only [firstIdxOf, if_neg hx, List.getD_cons_succ]
      exact ih hm

theorem firstIdxOf_lt_length (l : List ℚ) (a : ℚ) (h : a ∈ l) :
    firstIdxOf a l < l.length := by
  induction l with
  | nil => cases h
  | cons x xs ih =>
    by_cases hx : x = a
    · simp [firstIdxOf, hx]
    · have hm : a ∈ xs := by
        rcases List.mem_cons.mp h with h1 | h1
        · exact absurd h1.symm hx
        · exact h1
      simp only [firstIdxOf, if_neg hx, List.length_cons]
      exact Nat.succ_lt_succ (ih hm)

theorem firstIdxOf_first (l : List ℚ) (a : ℚ) :
    ∀ j, j < firstIdxOf a l → l.getD j 0 ≠ a := by
  induction l with
  | nil =>
    intro j hj
    simp [firstIdxOf] at hj
  | cons x xs ih =>
    intro j hj
    by_cases hx : x = a
    · rw [firstIdxOf, if_pos hx] at hj
      omega
    · rw [firstIdxOf, if_neg hx] at hj
      cases j with
      | zero => simpa using hx
      | succ j =>
        rw [List.getD_cons_succ]
        exact ih j (by omega)

/-! Helper lemmas about the filename date+time search. -/

theorem matchAt_zero (l : List Char) :
    matchAt l 0 ↔ (l.take 14).length = 14 ∧ (l.take 14).all Char.isDigit = true := by
  rw [matchAt, List.drop_zero, List.length_take]
  constructor
  · rintro ⟨h1, h2⟩
    exact ⟨by omega, h2⟩
  · rintro ⟨h1, h2⟩
    exact ⟨by omega, h2⟩

theorem matchAt_succ_cons (c : Char) (rest : List Char) (i : Nat) :
    matchAt (c :: rest) (i + 1) ↔ matchAt rest i := by
  rw [matchAt, matchAt, List.drop_succ_cons, List.length_cons]
  constructor
  · rintro ⟨h1, h2⟩
    exact ⟨by omega, h2⟩
  · rintro ⟨h1, h2⟩
    exact ⟨by omega, h2⟩

theorem findDigitRun_eq_none_iff (l : List Char) :
    findDigitRun l = none ↔ ∀ i, ¬ matchAt l i := by
  induction l with
  | nil =>
    simp only [findDigitRun, true_iff]
    intro i hm
    have := hm.1
    simp at this
  | cons c rest ih =>
    by_cases hc : ((c :: rest).take 14).length = 14 ∧
        ((c :: rest).take 14).all Char.isDigit
    · rw [findDigitRun, if_pos hc]
      simp only [reduceCtorEq, false_iff, not_forall, not_not]
      refine ⟨0, ?_⟩
      rw [matchAt_zero]
      exact ⟨hc.1, hc.2⟩
    · rw [findDigitRun, if_neg hc, ih]
      constructor
      · intro h i
        cases i with
        | zero =>
          intro hm
          rw [matchAt_zero] at hm
          exact hc ⟨hm.1, hm.2⟩
        | succ i =>
          rw [matchAt_succ_cons]
          exact h i
      · intro h i
        have := h (i + 1)
        rw [matchAt_succ_cons] at this
        exact this

/-! Helper lemmas about the contour decision. -/

theorem contourEmitted_eq_false_of_uniform (smooth : TempMatrix → TempMatrix)
    (mask : TempMatrix) (h : listMin (flat mask) = listMax (flat mask)) :
    contourEmitted smooth mask = false := by
  rw [contourEmitted, if_neg]
  intro hne
  exact hne h

theorem contourEmitted_iff (smooth : TempMatrix → TempMatrix) (mask : TempMatrix) :
    contourEmitted smooth mask = true ↔
      listMin (flat mask) ≠ listMax (flat mask) ∧
      listMin (flat (smooth mask)) < 1 / 2 ∧ 1 / 2 < listMax (flat (smooth mask)) := by
  rw [contourEmitted]
  by_cases h : listMin (flat mask) ≠ listMax (flat mask)
  · rw [if_pos h]
    simp [h]
  · rw [if_neg h]
    simp [h]

/-! Claim theorems. -/

/-- C1 (amended): for every temperature matrix whose median is nonnegative and
for all nonnegative configured margins d, u, the zone bounds of line 109,
t_low = median * (1 - d) and t_high = median * (1 + u), satisfy
t_low ≤ median ≤ t_high; and for d = u = 0 both bounds equal the median.
The unamended claim, quantified over every matrix, fails for matrices with a
negative median (see C1_counterexample). -/
theorem C1_zone_bounds (m : TempMatrix) (d u : ℚ)
    (hmed : 0 ≤ (computeStats m).t_med) (hd : 0 ≤ d) (hu : 0 ≤ u) :
    (zoneBounds (computeStats m).t_med d u).1 ≤ (computeStats m).t_med ∧
    (computeStats m).t_med ≤ (zoneBounds (computeStats m).t_med d u).2 ∧
    zoneBounds (computeStats m).t_med 0 0 =
      ((computeStats m).t_med, (computeStats m).t_med) := by
  refine ⟨?_, ?_, ?_⟩
  · show (computeStats m).t_med * (1 - d) ≤ (computeStats m).t_med
    nlinarith [mul_nonneg hmed hd]
  · show (computeStats m).t_med ≤ (computeStats m).t_med * (1 + u)
    nlinarith [mul_nonneg hmed hu]
  · show ((computeStats m).t_med * (1 - 0), (computeStats m).t_med * (1 + 0)) = _
    norm_num

/-- C1 counterexample: for the 1×1 matrix [[-10]] the median is -10 and, with
the nonnegative margins d = u = 1/10, the computed lower bound
median * (1 - d) = -9 lies strictly above the median, refuting the claimed
invariant lower ≤ median. -/
theorem C1_counterexample :
    (0 : ℚ) ≤ 1 / 10 ∧
    ¬ ((zoneBounds (computeStats [[(-10 : ℚ)]]).t_med (1 / 10) (1 / 10)).1 ≤
        (computeStats [[(-10 : ℚ)]]).t_med) := by
  have hmed : (computeStats [[(-10 : ℚ)]]).t_med = -10 := by
    norm_num [computeStats, listMedian, sortAsc, flat, List.insertionSort,
      List.orderedInsert]
  constructor
  · norm_num
  · rw [hmed]
    norm_num [zoneBounds]

/-- C1 witness: the amended invariant evaluated at the 1×1 matrix [[20]] with
margins d = u = 1/10. -/
theorem C1_witness :
    (zoneBounds (computeStats [[(20 : ℚ)]]).t_med (1 / 10) (1 / 10)).1 ≤
      (computeStats [[(20 : ℚ)]]).t_med ∧
    (computeStats [[(20 : ℚ)]]).t_med ≤
      (zoneBounds (computeStats [[(20 : ℚ)]]).t_med (1 / 10) (1 / 10)).2 ∧
    zoneBounds (computeStats [[(20 : ℚ)]]).t_med 0 0 =
      ((computeStats [[(20 : ℚ)]]).t_med, (computeStats [[(20 : ℚ)]]).t_med) :=
  C1_zone_bounds [[(20 : ℚ)]] (1 / 10) (1 / 10)
    (by norm_num [computeStats, listMedian, sortAsc, flat, List.insertionSort,
      List.orderedInsert])
    (by norm_num) (by norm_num)

/-- C5: for every temperature matrix with at least one entry, the statistics
of lines 99-100 satisfy t_min ≤ t_med ≤ t_max and t_min ≤ t_avg ≤ t_max. -/
theorem C5_stats_invariant (m : TempMatrix) (h : flat m ≠ []) :
    (computeStats m).t_min ≤ (computeStats m).t_med ∧
    (computeStats m).t_med ≤ (computeStats m).t_max ∧
    (computeStats m).t_min ≤ (computeStats m).t_avg ∧
    (computeStats m).t_avg ≤ (computeStats m).t_max := by
  have h1 := listMedian_bounds (flat m) h
  have h2 := listMean_bounds (flat m) h
  exact ⟨h1.1, h1.2, h2.1, h2.2⟩

/-- C5 witness: the statistics invariant evaluated at the 2×2 matrix
[[1, 5], [2, 2]]. -/
theorem C5_witness :
    (computeStats [[(1 : ℚ), 5], [2, 2]]).t_min ≤
      (computeStats [[(1 : ℚ), 5], [2, 2]]).t_med ∧
    (computeStats [[(1 : ℚ), 5], [2, 2]]).t_med ≤
      (computeStats [[(1 : ℚ), 5], [2, 2]]).t_max ∧
    (computeStats [[(1 : ℚ), 5], [2, 2]]).t_min ≤
      (computeStats [[(1 : ℚ), 5], [2, 2]]).t_avg ∧
    (computeStats [[(1 : ℚ), 5], [2, 2]]).t_avg ≤
      (computeStats [[(1 : ℚ), 5], [2, 2]]).t_max :=
  C5_stats_invariant [[(1 : ℚ), 5], [2, 2]] (by simp [flat])

/-- C4: in zone mode, a degenerate mask (uniformly 1 or uniformly 0) yields no
contour; a contour is emitted only when the smoothed field straddles the 0.5
level, so contour presence implies min(smoothed) < 0.5 < max(smoothed), and no
contour is emitted when min(smoothed) ≥ 0.5 or max(smoothed) ≤ 0.5.  The
Gaussian smoothing pass is quantified as an arbitrary function. -/
theorem C4_contour_guards (smooth : TempMatrix → TempMatrix) (m : TempMatrix)
    (t_low t_high : ℚ) :
    (((∀ x ∈ flat (zoneMask m t_low t_high), x = 1) ∨
      (∀ x ∈ flat (zoneMask m t_low t_high), x = 0)) →
      contourEmitted smooth (zoneMask m t_low t_high) = false) ∧
    (contourEmitted smooth (zoneMask m t_low t_high) = true →
      listMin (flat (smooth (zoneMask m t_low t_high))) < 1 / 2 ∧
      1 / 2 < listMax (flat (smooth (zoneMask m t_low t_high)))) ∧
    ((1 / 2 ≤ listMin (flat (smooth (zoneMask m t_low t_high))) ∨
      listMax (flat (smooth (zoneMask m t_low t_high))) ≤ 1 / 2) →
      contourEmitted smooth (zoneMask m t_low t_high) = false) := by
  refine ⟨?_, ?_, ?_⟩
  · rintro (h | h)
    · exact contourEmitted_eq_false_of_uniform smooth _
        (listMin_eq_listMax_of_const _ 1 h)
    · exact contourEmitted_eq_false_of_uniform smooth _
        (listMin_eq_listMax_of_const _ 0 h)
  · intro h
    exact ((contourEmitted_iff smooth _).mp h).2
  · intro h
    cases hb : contourEmitted smooth (zoneMask m t_low t_high)
    · rfl
    · have hstr := ((contourEmitted_iff smooth _).mp hb).2
      rcases h with h | h
      · linarith [hstr.1]
      · linarith [hstr.2]

/-- C4 witness: the degenerate-mask guard at the 1×1 matrix [[20]] with bounds
[18, 22] (mask uniformly 1), taking the identity as the smoothing pass. -/
theorem C4_witness :
    contourEmitted id (zoneMask [[(20 : ℚ)]] 18 22) = false :=
  (C4_contour_guards id [[(20 : ℚ)]] 18 22).1
    (Or.inl (by norm_num [zoneMask, flat]))

/-- C7: for the 4×4 matrix of constant value 20, the statistics are all 20;
with margins d = u = 1/10 the zone bounds are (18, 22); the zone mask is
uniformly 1; and no contour is emitted, for every smoothing pass. -/
theorem C7_constant_matrix :
    computeStats (List.replicate 4 (List.replicate 4 (20 : ℚ))) =
      { t_min := 20, t_max := 20, t_avg := 20, t_med := 20 } ∧
    zoneBounds (computeStats (List.replicate 4 (List.replicate 4 (20 : ℚ)))).t_med
      (1 / 10) (1 / 10) = (18, 22) ∧
    zoneMask (List.replicate 4 (List.replicate 4 (20 : ℚ))) 18 22 =
      List.replicate 4 (List.replicate 4 (1 : ℚ)) ∧
    ∀ smooth : TempMatrix → TempMatrix,
      contourEmitted smooth
        (zoneMask (List.replicate 4 (List.replicate 4 (20 : ℚ))) 18 22) = false := by
  have hstats : computeStats (List.replicate 4 (List.replicate 4 (20 : ℚ))) =
      { t_min := 20, t_max := 20, t_avg := 20, t_med := 20 } := by
    norm_num [computeStats, flat, listMin, listMax, listMean, listMedian, sortAsc,
      List.insertionSort, List.orderedInsert, List.replicate, min_self, max_self]
  have hmask : zoneMask (List.replicate 4 (List.replicate 4 (20 : ℚ))) 18 22 =
      List.replicate 4 (List.replicate 4 (1 : ℚ)) := by
    norm_num [zoneMask, List.replicate]
  refine ⟨hstats, ?_, hmask, ?_⟩
  · rw [hstats]
    show ((20 : ℚ) * (1 - 1 / 10), (20 : ℚ) * (1 + 1 / 10)) = (18, 22)
    norm_num
  · intro smooth
    apply contourEmitted_eq_false_of_uniform
    rw [hmask]
    norm_num [flat, listMin, listMax, List.replicate, min_self, max_self]

/-- C3: for every non-empty well-formed matrix, the argmax and argmin of lines
117-118 point (through unravel_index) at cells whose values equal t_max and
t_min exactly, and every earlier index in the row-major flattening holds a
strictly different value, so ties keep the first index encountered. -/
theorem C3_extrema (m : TempMatrix) (hgt wid : Nat) (hwf : Wf m hgt wid)
    (hh : 0 < hgt) (hw : 0 < wid) :
    matGet m (unravelIndex (argmaxIdx (flat m)) wid).1
        (unravelIndex (argmaxIdx (flat m)) wid).2 = (computeStats m).t_max ∧
    matGet m (unravelIndex (argminIdx (flat m)) wid).1
        (unravelIndex (argminIdx (flat m)) wid).2 = (computeStats m).t_min ∧
    (∀ j, j < argmaxIdx (flat m) → (flat m).getD j 0 ≠ (computeStats m).t_max) ∧
    (∀ j, j < argminIdx (flat m) → (flat m).getD j 0 ≠ (computeStats m).t_min) := by
  obtain ⟨hlen, hrows⟩ := hwf
  have hfllen : (flat m).length = hgt * wid := by
    rw [flat_length m wid hrows, hlen]
  have hne : flat m ≠ [] := by
    have hpos : 0 < (flat m).length := by
      rw [hfllen]
      exact Nat.mul_pos hh hw
    exact List.ne_nil_of_length_pos hpos
  have hmaxmem := listMax_mem (flat m) hne
  have hminmem := listMin_mem (flat m) hne
  have hmaxlt : argmaxIdx (flat m) < hgt * wid := by
    rw [← hfllen]
    exact firstIdxOf_lt_length _ _ hmaxmem
  have hminlt : argminIdx (flat m) < hgt * wid := by
    rw [← hfllen]
    exact firstIdxOf_lt_length _ _ hminmem
  have key : ∀ i, i < hgt * wid →
      matGet m (unravelIndex i wid).1 (unravelIndex i wid).2 = (flat m).getD i 0 := by
    intro i hi
    have hr : i / wid < m.length := by
      rw [hlen]
      exact (Nat.div_lt_iff_lt_mul hw).mpr hi
    have hc : i % wid < wid := Nat.mod_lt _ hw
    have hmg := matGet_flat m wid (i / wid) (i % wid) hrows hr hc
    rw [unravelIndex, ← hmg]
    congr 1
    rw [Nat.mul_comm]
    exact Nat.div_add_mod i wid
  refine ⟨?_, ?_, ?_, ?_⟩
  · rw [key _ hmaxlt]
    exact firstIdxOf_getD _ _ hmaxmem
  · rw [key _ hminlt]
    exact firstIdxOf_getD _ _ hminmem
  · intro j hj
    exact firstIdxOf_first _ _ j hj
  · intro j hj
    exact firstIdxOf_first _ _ j hj

/-- C3 witness: the located extrema of the 2×2 matrix [[3, 7], [7, 1]] carry
exactly the values t_max and t_min. -/
theorem C3_witness :
    matGet [[(3 : ℚ), 7], [7, 1]]
        (unravelIndex (argmaxIdx (flat [[(3 : ℚ), 7], [7, 1]])) 2).1
        (unravelIndex (argmaxIdx (flat [[(3 : ℚ), 7], [7, 1]])) 2).2 =
      (computeStats [[(3 : ℚ), 7], [7, 1]]).t_max ∧
    matGet [[(3 : ℚ), 7], [7, 1]]
        (unravelIndex (argminIdx (flat [[(3 : ℚ), 7], [7, 1]])) 2).1
        (unravelIndex (argminIdx (flat [[(3 : ℚ), 7], [7, 1]])) 2).2 =
      (computeStats [[(3 : ℚ), 7], [7, 1]]).t_min :=
  ⟨(C3_extrema [[(3 : ℚ), 7], [7, 1]] 2 2 ⟨rfl, by decide⟩ (by decide) (by decide)).1,
   (C3_extrema [[(3 : ℚ), 7], [7, 1]] 2 2 ⟨rfl, by decide⟩ (by decide) (by decide)).2.1⟩

/-- C8: parse_dji_datetime reformats the first 8-digit date and 6-digit time
field of the filename as DD.MM.YYYY HH:MM:SS, as on the example filename, and
returns the fixed placeholder for every filename without such a field. -/
theorem C8_timestamp :
    parse_dji_datetime "DJI_20230615143022_0001_T.JPG" = "15.06.2023 14:30:22" ∧
    (∀ s : String, (∃ i, matchAt s.data i) →
      ∃ ds, findDigitRun s.data = some ds ∧
        parse_dji_datetime s = formatDjiDatetime ds) ∧
    (∀ s : String, (∀ i, ¬ matchAt s.data i) →
      parse_dji_datetime s = "Data nieznana") := by
  refine ⟨?_, ?_, ?_⟩
  · decide
  · intro s hs
    cases hfind : findDigitRun s.data with
    | none =>
      rw [findDigitRun_eq_none_iff] at hfind
      obtain ⟨i, hi⟩ := hs
      exact absurd hi (hfind i)
    | some ds =>
      refine ⟨ds, rfl, ?_⟩
      simp only [parse_dji_datetime, hfind]
  · intro s hs
    have hnone : findDigitRun s.data = none := (findDigitRun_eq_none_iff _).mpr hs
    simp only [parse_dji_datetime, hnone]

/-- C8 witness: a filename with no 14-digit field is given the placeholder. -/
theorem C8_witness : parse_dji_datetime "IMG.JPG" = "Data nieznana" :=
  C8_timestamp.2.2 "IMG.JPG" (fun i hm => by
    have h1 := hm.1
    have h7 : ("IMG.JPG".data).length = 7 := rfl
    omega)

/-- sortFiles permutes its input. -/
theorem sortFiles_perm (files : List String) : (sortFiles files).Perm files :=
  List.perm_insertionSort _ files

/-- C2: the batch loop processes exactly the glob-matched files, in sorted
lexicographic order; a per-file failure is caught and recorded with the file
name, and the loop continues, so the event list covers every matched file
whatever the per-file outcomes. -/
theorem C2_batch_driver (proc : String → Except String Unit) (entries : List String) :
    (runBatch proc entries).map eventFile = sortFiles (matchingFiles entries) ∧
    (sortFiles (matchingFiles entries)).Sorted (· ≤ ·) ∧
    (sortFiles (matchingFiles entries)).Perm (matchingFiles entries) ∧
    (runBatch proc entries).length = (matchingFiles entries).length ∧
    (∀ f e, f ∈ matchingFiles entries → proc f = .error e →
      BatchEvent.failed f e ∈ runBatch proc entries) ∧
    (∀ f, f ∈ matchingFiles entries → proc f = .ok () →
      BatchEvent.processed f ∈ runBatch proc entries) := by
  have hstep : ∀ f, eventFile (match proc f with
      | .ok _ => BatchEvent.processed f
      | .error e => BatchEvent.failed f e) = f := by
    intro f
    cases proc f <;> rfl
  have hmap : (runBatch proc entries).map eventFile =
      sortFiles (matchingFiles entries) := by
    rw [runBatch, List.map_map]
    have hcong : List.map (eventFile ∘ fun f => match proc f with
        | .ok _ => BatchEvent.processed f
        | .error e => BatchEvent.failed f e) (sortFiles (matchingFiles entries)) =
        List.map id (sortFiles (matchingFiles entries)) :=
      List.map_congr_left (fun a _ => hstep a)
    rw [hcong, List.map_id]
  have hmem : ∀ f, f ∈ matchingFiles entries →
      (match proc f with
        | .ok _ => BatchEvent.processed f
        | .error e => BatchEvent.failed f e) ∈ runBatch proc entries := by
    intro f hf
    rw [runBatch]
    exact List.mem_map_of_mem _ ((sortFiles_perm _).mem_iff.mpr hf)
  refine ⟨hmap, List.sorted_insertionSort _ _, sortFiles_perm _, ?_, ?_, ?_⟩
  · have hlen := congrArg List.length hmap
    rw [List.length_map] at hlen
    rw [hlen, (sortFiles_perm (matchingFiles entries)).length_eq]
  · intro f e hf hproc
    have hin := hmem f hf
    rw [hproc] at hin
    exact hin
  · intro f hf hproc
    have hin := hmem f hf
    rw [hproc] at hin
    exact hin

/-- C2 witness: with a processing step that always fails, the failure of the
matched file is logged with its name in the batch events. -/
theorem C2_witness :
    BatchEvent.failed "a_T.JPG" "decode failed" ∈
      runBatch (fun _ => Except.error "decode failed") ["a_T.JPG", "notes.txt"] :=
  (C2_batch_driver (fun _ => Except.error "decode failed")
    ["a_T.JPG", "notes.txt"]).2.2.2.2.1 "a_T.JPG" "decode failed" (by decide) rfl

/-- C6: in raw mode, when the raster write succeeds and the exiftool step
exits non-zero, save_radiometric_tiff records the written raster — carrying
the unaltered matrix payload — followed by a warning, and nothing else: no
error is printed and no exception escapes (the function is total). -/
theorem C6_exif_warning (data : TempMatrix) (code : Int) (stderr : String)
    (hcode : code ≠ 0) :
    save_radiometric_tiff data (.ok ()) (.ok (code, stderr)) =
      [SaveEvent.wroteTiff data, SaveEvent.warnedExif stderr] := by
  simp [save_radiometric_tiff, saveBody, hcode]

/-- C6 witness: the warning path evaluated at a concrete matrix and a failing
exiftool exit code. -/
theorem C6_witness :
    save_radiometric_tiff [[(20 : ℚ)]] (.ok ()) (.ok (1, "exiftool missing")) =
      [SaveEvent.wroteTiff [[(20 : ℚ)]], SaveEvent.warnedExif "exiftool missing"] :=
  C6_exif_warning [[(20 : ℚ)]] 1 "exiftool missing" (by decide)

/-- C10: save_radiometric_tiff converts every exception of its body — a write
failure included — into a printed message and returns normally, so in raw
mode process_image succeeds whatever the write and exiftool outcomes, and the
batch loop records such a file as processed rather than failed. -/
theorem C10_save_never_raises (data : TempMatrix) (writeRes : Except String Unit)
    (exifRun : Except String (Int × String)) (e : String) :
    (∃ evs, process_image_orto (.ok data) writeRes exifRun = .ok evs) ∧
    save_radiometric_tiff data (.error e) exifRun = [SaveEvent.printedError e] ∧
    runBatch (fun _ => (process_image_orto (.ok data) (.error e) exifRun).map
        (fun _ => ())) ["a_T.JPG"] = [BatchEvent.processed "a_T.JPG"] := by
  refine ⟨⟨save_radiometric_tiff data writeRes exifRun, rfl⟩, rfl, rfl⟩

/-- C9 counterexample: when savefig fails, the figure-lifecycle trace of
process_image contains no figClosed event: the figure is not disposed of,
refuting the claim that disposal happens whether or not writing succeeds. -/
theorem C9_counterexample :
    FigEvent.figClosed ∉
      (composeReport "DJI_0001_T_strefa.jpg" (.error "disk full")).1 := by
  decide

/-- C9 (amended): each invocation creates a fresh figure; when savefig
succeeds the figure is closed and nothing escapes, but when savefig raises,
the exception propagates to the batch loop and the figure is not closed,
because lines 138-139 have no try/finally. -/
theorem C9_figure_lifecycle (path e : String) :
    (composeReport path (.ok ())).1 =
      [FigEvent.figCreated, FigEvent.savedFig path, FigEvent.figClosed] ∧
    (composeReport path (.ok ())).2 = none ∧
    (composeReport path (.error e)).1 = [FigEvent.figCreated] ∧
    (composeReport path (.error e)).2 = some e ∧
    FigEvent.figClosed ∉ (composeReport path (.error e)).1 := by
  refine ⟨rfl, rfl, rfl, rfl, ?_⟩
  simp [composeReport]

end Termika
